import Mathlib

/-!
# Hand-Tracking-3D: verification of the interaction core

Shallow embedding of the interaction core of the Hand-Tracking-3D
repository (grid variant in `env-2/js/main.js` + `env-2/js/handTracking.js`,
gesture classifier in `env-1/js/gestures.js`, particle field in the
unnamed Three.js variant), together with theorems settling the frozen
claims about the natural-language specification.

Conventions:
* JavaScript numbers are modelled as `ℚ` where the code only adds,
  multiplies, compares and floors (exact at every input used here), and as
  `ℝ` where the code calls transcendental functions (`atan2`, `acos`,
  `sin`, `cos`, `sqrt`).
* JavaScript plain objects used as keyed dictionaries (`cellObjects`,
  `heldObjects`, `prevLandmarks`, gesture history maps) are modelled as
  association lists with first-match lookup; `delete` removes the key,
  assignment replaces it.
-/

namespace HandTracking

/-! ## Gesture types (`env-1/js/gestures.js`, `GESTURE_TYPES`) -/

inductive GestureType where
  | NONE
  | OPEN
  | PINCH
  | FIST
  | PEACE
  | THUMBS_UP
  | POINTING
  | ROCK
  deriving DecidableEq, Repr

/-- A classified gesture: `{type, confidence}` as returned by
`GestureRecognizer.classifyGesture`. -/
structure Gesture where
  type : GestureType
  confidence : ℚ
  deriving DecidableEq, Repr

/-- The per-finger extension flags computed by
`GestureRecognizer.getFingerStates` (the geometric tests themselves live
upstream; the classifier only consumes these five booleans). -/
structure FingerStates where
  thumb : Bool
  index : Bool
  middle : Bool
  ring : Bool
  pinky : Bool
  deriving DecidableEq, Repr

/-- Source `states.extendedCount`: number of finger flags that are `true`. -/
def extendedCount (fs : FingerStates) : ℕ :=
  [fs.thumb, fs.index, fs.middle, fs.ring, fs.pinky].count true

/-- Source `this.pinchStartThreshold = 0.06`. -/
def pinchStartThreshold : ℚ := 6/100

/-- Source `this.pinchEndThreshold = 0.10`. -/
def pinchEndThreshold : ℚ := 10/100

/-- Source `GestureRecognizer.classifyGesture(fingerStates, pinchDistance, handIndex)`.
`wasPinching` stands for `this.prevGestures.get(handIndex)?.type === PINCH`. -/
def classifyGesture (fs : FingerStates) (pinchDistance : ℚ) (wasPinching : Bool) :
    Gesture :=
  if extendedCount fs ≤ 1 then
    ⟨.FIST, 9/10⟩
  else if (if wasPinching then pinchDistance < pinchEndThreshold
           else pinchDistance < pinchStartThreshold) then
    ⟨.PINCH, 9/10⟩
  else if 4 ≤ extendedCount fs then
    ⟨.OPEN, 9/10⟩
  else if fs.index && fs.middle && !fs.ring && !fs.pinky then
    ⟨.PEACE, 85/100⟩
  else if fs.thumb && !fs.index && !fs.middle && !fs.ring && !fs.pinky then
    ⟨.THUMBS_UP, 8/10⟩
  else if !fs.thumb && fs.index && !fs.middle && !fs.ring && !fs.pinky then
    ⟨.POINTING, 8/10⟩
  else if fs.index && !fs.middle && !fs.ring && fs.pinky then
    ⟨.ROCK, 8/10⟩
  else
    ⟨.NONE, 5/10⟩

/-- The pinch decision of `classifyGesture` (two-threshold hysteresis). -/
def pinchCond (pinchDistance : ℚ) (wasPinching : Bool) : Prop :=
  if wasPinching then pinchDistance < pinchEndThreshold
  else pinchDistance < pinchStartThreshold

instance (d : ℚ) (w : Bool) : Decidable (pinchCond d w) := by
  unfold pinchCond; infer_instance

/-! ## Temporal hysteresis (`GestureRecognizer.applyHysteresis`) -/

/-- Source `this.historySize = 3`. -/
def historySize : ℕ := 3

/-- Source `history.push(type); if (history.length > historySize) history.shift();`. -/
def pushHistory (history : List GestureType) (t : GestureType) :
    List GestureType :=
  let h := history ++ [t]
  if historySize < h.length then h.tail else h

/-- Key order of the JS `counts` object built by iterating `history`:
each type in order of first occurrence. -/
def firstOccs (l : List GestureType) : List GestureType :=
  l.foldl (fun acc t => if t ∈ acc then acc else acc ++ [t]) []

/-- The `for (const [type, count] of Object.entries(counts))` scan:
starts with `maxCount = 0, stableType = gesture.type`, updates on a
strictly larger count. -/
def modalScan (h : List GestureType) (init : GestureType) :
    GestureType × ℕ :=
  (firstOccs h).foldl
    (fun acc t => if acc.2 < h.count t then (t, h.count t) else acc)
    (init, 0)

/-- Source `GestureRecognizer.applyHysteresis` restricted to one hand slot:
returns the emitted gesture and the updated ring buffer. -/
def applyHysteresis (history : List GestureType) (g : Gesture) :
    Gesture × List GestureType :=
  let h := pushHistory history g.type
  let scan := modalScan h g.type
  (if (historySize + 1) / 2 ≤ scan.2 then { g with type := scan.1 } else g, h)

/-- Feed a sequence of raw classified types through `applyHysteresis`
for a single hand slot, starting from an empty history; returns the list
of emitted types. -/
def emitSeq (raws : List GestureType) : List GestureType :=
  (raws.foldl
    (fun (acc : List GestureType × List GestureType) r =>
      let res := applyHysteresis acc.1 ⟨r, 9/10⟩
      (res.2, acc.2 ++ [res.1.type]))
    ([], [])).2

/-! ## Association lists (JS objects / `Map`s used as keyed dictionaries) -/

section AssocMap

variable {α β : Type} [DecidableEq α]

/-- Lookup `m[k]` for a JS object: value of the (unique) entry with key `k`. -/
def lookupA : List (α × β) → α → Option β
  | [], _ => none
  | (k', v) :: rest, k => if k' = k then some v else lookupA rest k

/-- Deletion `delete m[k]` for a JS object. -/
def eraseA (m : List (α × β)) (k : α) : List (α × β) :=
  m.filter (fun p => decide (p.1 ≠ k))

/-- Assignment `m[k] = v` for a JS object (replace or insert). -/
def setA (m : List (α × β)) (k : α) (v : β) : List (α × β) :=
  (k, v) :: eraseA m k

/-- Sum of a valuation over all entries of the map (used to count how
often an object occurs across the whole dictionary). -/
def sumVal (m : List (α × β)) (f : β → ℕ) : ℕ :=
  (m.map (fun p => f p.2)).sum

end AssocMap

/-! ## Coordinate mapper (`HandGridController.getCellIndex`) -/

/-- Source `this.gridCols = 3`. -/
def gridCols : ℤ := 3

/-- Source `this.gridRows = 3`. -/
def gridRows : ℤ := 3

/-- Source `HandGridController.getCellIndex(x, y)`: normalized palm-center
coordinates to 3×3 grid cell index (mirrored horizontally), `-1` when the
column or row is out of range. -/
def getCellIndex (x y : ℚ) : ℤ :=
  let flippedX := 1 - x
  let col := ⌊flippedX * 3⌋
  let row := ⌊y * 3⌋
  if col < 0 ∨ gridCols ≤ col ∨ row < 0 ∨ gridRows ≤ row then -1
  else row * gridCols + col

/-! ## Grid ownership state machine
(`HandGridController.processHands/grabObject/dropObject`)

Objects are identified by natural-number tags. The flip-snapshot fields of
a held record (`grabAngle`, `grabNormalZ`, `grabWasBack`, `isBack`) do not
participate in the cell/slot bookkeeping; they are modelled separately
with the orientation functions below. -/

/-- One entry of `this.heldObjects`: `{ element, fromCellIndex }`. -/
structure Held where
  element : ℕ
  fromCellIndex : ℤ
  deriving DecidableEq, Repr

/-- The cell/ownership state: `cellObjects` maps a cell index to the
ordered collection of objects resting in it, `heldObjects` maps a hand
slot to the object it holds. -/
structure GridState where
  cellObjects : List (ℤ × List ℕ)
  heldObjects : List (ℕ × Held)
  deriving DecidableEq, Repr

/-- Source `HandGridController.grabObject(handIndex, cellIndex, …)`:
pop the last-inserted object of the cell (no-op if the cell entry is
missing or empty), delete the cell entry if now empty, record the held
object for this hand slot. -/
def grabObject (s : GridState) (handIndex : ℕ) (cellIndex : ℤ) : GridState :=
  match lookupA s.cellObjects cellIndex with
  | none => s
  | some arr =>
    match arr.getLast? with
    | none => s
    | some el =>
      let rest := arr.dropLast
      { cellObjects :=
          if rest.isEmpty then eraseA s.cellObjects cellIndex
          else setA s.cellObjects cellIndex rest,
        heldObjects := setA s.heldObjects handIndex ⟨el, cellIndex⟩ }

/-- Source `HandGridController.dropObject(handIndex, cellIndex)`: append the
held object to the destination cell's collection (creating it if absent)
and clear the hand slot. -/
def dropObject (s : GridState) (handIndex : ℕ) (cellIndex : ℤ) : GridState :=
  match lookupA s.heldObjects handIndex with
  | none => s
  | some held =>
    let arr := (lookupA s.cellObjects cellIndex).getD []
    { cellObjects := setA s.cellObjects cellIndex (arr ++ [held.element]),
      heldObjects := eraseA s.heldObjects handIndex }

/-- Per-hand frame input consumed by `processHands`: the emitted gesture
type for this hand slot and the palm-center normalized coordinates. -/
structure HandInput where
  type : GestureType
  x : ℚ
  y : ℚ
  deriving DecidableEq, Repr

/-- The per-hand body of `HandGridController.processHands`: grab on FIST
when the slot is free, the cell index is ≥ 0 and the cell is non-empty;
drop on OPEN when the slot is holding and the cell index is in `[0, 9)`. -/
def processHand (s : GridState) (handIndex : ℕ) (inp : HandInput) : GridState :=
  let c := getCellIndex inp.x inp.y
  let s1 :=
    if inp.type = GestureType.FIST ∧
       lookupA s.heldObjects handIndex = none ∧ 0 ≤ c ∧
       ((lookupA s.cellObjects c).getD []) ≠ []
    then grabObject s handIndex c else s
  if inp.type = GestureType.OPEN ∧
     (lookupA s1.heldObjects handIndex).isSome ∧ 0 ≤ c ∧ c < 9
  then dropObject s1 handIndex c else s1

/-- Source `HandGridController.processHands(hands)`: each detected hand is
processed in slot order. -/
def processHands (s : GridState) (hands : List HandInput) : GridState :=
  hands.enum.foldl (fun st p => processHand st p.1 p.2) s

/-- Initial placement `createGridObjects([0, 4])` executed by `start()`: object `0` in
cell 0, object `1` in cell 4, nothing held. -/
def initState : GridState :=
  { cellObjects := [(0, [0]), (4, [1])], heldObjects := [] }

/-- A run of the main loop: one `processHands` call per frame. -/
def run (trace : List (List HandInput)) : GridState :=
  trace.foldl processHands initState

/-- How often object `o` occurs across all cell collections. -/
def cellCount (m : List (ℤ × List ℕ)) (o : ℕ) : ℕ :=
  sumVal m (fun arr => arr.count o)

/-- How often object `o` occurs across all hand slots. -/
def heldCount (m : List (ℕ × Held)) (o : ℕ) : ℕ :=
  sumVal m (fun hd => if hd.element = o then 1 else 0)

/-- The inductive invariant of the grid state machine: keys are unique,
and every object of the initial placement occurs exactly once across
cells and hand slots (and no other object occurs at all). -/
def Inv (s : GridState) : Prop :=
  (s.cellObjects.map Prod.fst).Nodup ∧
  (s.heldObjects.map Prod.fst).Nodup ∧
  ∀ o : ℕ, cellCount s.cellObjects o + heldCount s.heldObjects o =
    if o < 2 then 1 else 0

/-! ## Landmark smoother (`HandTracker.smoothLandmarks` / `detectHands`) -/

/-- A landmark `{x, y, z}` with exact coordinates. -/
structure Pt where
  x : ℚ
  y : ℚ
  z : ℚ
  deriving DecidableEq, Repr

instance : Inhabited Pt := ⟨⟨0, 0, 0⟩⟩

/-- Source `this.smoothingFactor = 0.8`. -/
def smoothingFactor : ℚ := 8/10

/-- One coordinate-wise smoothing step:
`prev * (1 - smoothingFactor) + raw * smoothingFactor`. -/
def smoothPoint (prevLm lm : Pt) : Pt :=
  ⟨prevLm.x * (1 - smoothingFactor) + lm.x * smoothingFactor,
   prevLm.y * (1 - smoothingFactor) + lm.y * smoothingFactor,
   prevLm.z * (1 - smoothingFactor) + lm.z * smoothingFactor⟩

/-- Source `HandTracker.smoothLandmarks(landmarks, handIndex)`: returns the
updated `prevLandmarks` map and the smoothed landmark list. -/
def smoothLandmarks (prevMap : List (ℕ × List Pt)) (landmarks : List Pt)
    (handIndex : ℕ) : List (ℕ × List Pt) × List Pt :=
  match lookupA prevMap handIndex with
  | none => (setA prevMap handIndex landmarks, landmarks)
  | some prev =>
    let smoothed := landmarks.enum.map (fun p =>
      match prev.get? p.1 with
      | none => p.2
      | some prevLm => smoothPoint prevLm p.2)
    (setA prevMap handIndex smoothed, smoothed)

/-- The state-relevant core of `HandTracker.detectHands` for one frame in
which the detector ran: `obs` is `result.landmarks` (one landmark list
per reported hand). Empty `obs` sets `lastResult = null` and clears
`prevLandmarks`; otherwise each hand is smoothed in slot order. Returns
the updated `prevLandmarks` map and the frame result. -/
def detectStep (prevMap : List (ℕ × List Pt)) (obs : List (List Pt)) :
    List (ℕ × List Pt) × Option (List (List Pt)) :=
  if obs.isEmpty then ([], none)
  else
    let res := obs.enum.foldl
      (fun (acc : List (ℕ × List Pt) × List (List Pt)) p =>
        let sm := smoothLandmarks acc.1 p.2 p.1
        (sm.1, acc.2 ++ [sm.2]))
      (prevMap, [])
    (res.1, some res.2)

/-! ## Orientation (flip) tracking
(`HandGridController.getPalmAngle/getPalmNormalZ/updateHeldObjectFlip`)

Landmark coordinates stay in `ℚ`; the angle computations (`Math.atan2`,
the `±2π` wrap loops, the `π/6` threshold) live in `ℝ`. -/

/-- Source `HandGridController.getPalmNormalZ(worldLandmarks)`: z component of
the cross product of (indexMCP − wrist) and (pinkyMCP − wrist); `null`
when fewer than 18 world landmarks are present. -/
def getPalmNormalZ (wl : List Pt) : Option ℚ :=
  if wl.length < 18 then none
  else
    let wrist := wl.getD 0 default
    let indexMcp := wl.getD 5 default
    let pinkyMcp := wl.getD 17 default
    let ax := indexMcp.x - wrist.x
    let ay := indexMcp.y - wrist.y
    let bx := pinkyMcp.x - wrist.x
    let by' := pinkyMcp.y - wrist.y
    some (ax * by' - ay * bx)

open Real in
/-- JS `Math.atan2(y, x)` (ignoring signed zeros, which never arise in
the exact model). -/
noncomputable def atan2 (y x : ℝ) : ℝ :=
  if 0 < x then arctan (y / x)
  else if x < 0 then
    (if 0 ≤ y then arctan (y / x) + π else arctan (y / x) - π)
  else if 0 < y then π / 2
  else if y < 0 then -(π / 2)
  else 0

/-- Source `HandGridController.getPalmAngle(landmarks)`: `atan2` of the
wrist→middle-MCP vector, `0` when fewer than 10 landmarks are present. -/
noncomputable def getPalmAngle (lm : List Pt) : ℝ :=
  if lm.length < 10 then 0
  else
    let wrist := lm.getD 0 default
    let middleMcp := lm.getD 9 default
    atan2 ((middleMcp.y : ℝ) - (wrist.y : ℝ)) ((middleMcp.x : ℝ) - (wrist.x : ℝ))

open Real in
/-- Closed form of the wrap loops
`while (diff > π) diff -= 2π; while (diff < -π) diff += 2π;`
(each loop runs its exact iteration count, `max 0 ⌈…⌉`). -/
noncomputable def wrapToPi (d : ℝ) : ℝ :=
  let d1 := d - 2 * π * (max 0 ⌈(d - π) / (2 * π)⌉ : ℤ)
  d1 + 2 * π * (max 0 ⌈(-π - d1) / (2 * π)⌉ : ℤ)

/-- The grab-time flip snapshot stored in a `heldObjects` entry of the
flip-aware grid variant: `{ grabAngle, grabNormalZ, grabWasBack }`. -/
structure HeldFlip where
  grabAngle : ℝ
  grabNormalZ : Option ℚ
  grabWasBack : Bool

open Real in
/-- The `isBack` computation of `HandGridController.updateHeldObjectFlip`:
starts from `false`; the normal-z block runs when current world landmarks
and the grab-time normal are both available; the 2D angle block runs
(last, overriding) exactly when `grabNormalZ` is `null`. -/
noncomputable def computeIsBack (held : HeldFlip) (landmarks : List Pt)
    (worldLandmarks : Option (List Pt)) : Bool :=
  let isBackNormal : Bool :=
    match worldLandmarks, held.grabNormalZ with
    | some wl, some gz =>
      match getPalmNormalZ wl with
      | some currentNormalZ =>
        xor (decide (currentNormalZ * gz < 0)) held.grabWasBack
      | none => false
    | _, _ => false
  if held.grabNormalZ = none then
    let currentAngle := getPalmAngle landmarks
    let diff := wrapToPi (currentAngle - held.grabAngle)
    xor (decide (π / 6 < |diff|)) held.grabWasBack
  else isBackNormal

/-! ## Magic particle field (`MagicParticleField`, unnamed Three.js
variant). Only the `gather` transition is claim-relevant; the randomized
scatter positions and the per-frame integrator are not modelled. -/

/-- Source `this.particleCount = 800`. -/
def particleCount : ℕ := 800

/-- Source `this.sphereRadius = 1.2`. -/
noncomputable def sphereRadius : ℝ := 12/10

/-- A 3D vector. -/
structure Vec3 where
  x : ℝ
  y : ℝ
  z : ℝ

/-- Source `this.state` ranges over scattered, gathering, gathered. -/
inductive FieldMode where
  | scattered
  | gathering
  | gathered
  deriving DecidableEq, Repr

/-- The claim-relevant state of `MagicParticleField`. -/
structure ParticleField where
  mode : FieldMode
  targetCenter : Vec3
  targetPositions : ℕ → Vec3

open Real in
/-- Source `MagicParticleField.gather(center)`: golden-angle sphere targets
(`phi = acos(1 - 2(i+0.5)/N)`, `theta = π(1+√5)·i`, spherical→Cartesian
about `center` at radius `sphereRadius`) and state `'gathering'`. -/
noncomputable def gather (f : ParticleField) (center : Vec3) : ParticleField :=
  { mode := .gathering,
    targetCenter := center,
    targetPositions := fun i =>
      if i < particleCount then
        let phi := arccos (1 - 2 * ((i : ℝ) + 1/2) / (particleCount : ℝ))
        let theta := π * (1 + Real.sqrt 5) * (i : ℝ)
        ⟨center.x + sphereRadius * sin phi * cos theta,
         center.y + sphereRadius * sin phi * sin theta,
         center.z + sphereRadius * cos phi⟩
      else f.targetPositions i }

/-- Euclidean distance between two `Vec3`. -/
noncomputable def dist3 (a b : Vec3) : ℝ :=
  Real.sqrt ((a.x - b.x)^2 + (a.y - b.y)^2 + (a.z - b.z)^2)

/-! ## Theorems -/

/-- C10. For every `y`, the cell mapping applied to `x = 0` returns
`-1`: the mirror flip yields `flippedX = 1`, so `col = ⌊3⌋ = 3` fails the
column range check, and the left edge of the mirrored image never
activates a cell. -/
theorem c10_left_edge_no_cell : ∀ y : ℚ, getCellIndex 0 y = -1 := by
  intro y
  norm_num [getCellIndex, gridCols, gridRows]

/-- C7 (counterexample). The input `x = 1` lies outside the
documented range `[0,1)`, yet the mapping returns cell `3` (not `-1`):
`flippedX = 0`, `col = 0`, `row = 1`. -/
theorem c7_counterexample : getCellIndex 1 (5/10) = 3 := by
  norm_num [getCellIndex, gridCols, gridRows]

/-- C7 (amended). The cell mapping computes `flippedX = 1 - x`,
`col = ⌊flippedX·3⌋`, `row = ⌊y·3⌋` and returns `row·3 + col` when both
are in range and `-1` otherwise; the in-range inputs are exactly
`x ∈ (0,1]` and `y ∈ [0,1)` (so `x = 1` maps to column 0 while every
other input outside `[0,1)` on either axis yields `-1`); in particular
`toCell(0.9, 0.1) = 0` and `toCell(1.5, 0.5) = -1`. -/
theorem c7_cell_mapping : ∀ x y : ℚ,
    (0 < x → x ≤ 1 → 0 ≤ y → y < 1 →
      getCellIndex x y = ⌊y * 3⌋ * 3 + ⌊(1 - x) * 3⌋) ∧
    (x ≤ 0 ∨ 1 < x ∨ y < 0 ∨ 1 ≤ y → getCellIndex x y = -1) ∧
    getCellIndex (9/10) (1/10) = 0 ∧ getCellIndex (15/10) (5/10) = -1 := by
  intro x y
  refine ⟨?_, ?_, by norm_num [getCellIndex, gridCols, gridRows],
    by norm_num [getCellIndex, gridCols, gridRows]⟩
  · intro hx0 hx1 hy0 hy1
    unfold getCellIndex gridCols gridRows
    have hcol0 : 0 ≤ ⌊(1 - x) * 3⌋ := Int.floor_nonneg.mpr (by nlinarith)
    have hcol3 : ⌊(1 - x) * 3⌋ < 3 := Int.floor_lt.mpr (by push_cast; nlinarith)
    have hrow0 : 0 ≤ ⌊y * 3⌋ := Int.floor_nonneg.mpr (by nlinarith)
    have hrow3 : ⌊y * 3⌋ < 3 := Int.floor_lt.mpr (by push_cast; nlinarith)
    rw [if_neg]
    push_neg
    exact ⟨hcol0, hcol3, hrow0, hrow3⟩
  · intro hout
    unfold getCellIndex gridCols gridRows
    rcases hout with h | h | h | h
    · have : (3 : ℤ) ≤ ⌊(1 - x) * 3⌋ := Int.le_floor.mpr (by push_cast; nlinarith)
      rw [if_pos]; tauto
    · have : ⌊(1 - x) * 3⌋ < 0 := Int.floor_lt.mpr (by push_cast; nlinarith)
      rw [if_pos]; tauto
    · have : ⌊y * 3⌋ < 0 := Int.floor_lt.mpr (by push_cast; nlinarith)
      rw [if_pos]; tauto
    · have : (3 : ℤ) ≤ ⌊y * 3⌋ := Int.le_floor.mpr (by push_cast; nlinarith)
      rw [if_pos]; tauto

/-- C7 (witness). The amended mapping law evaluated at the concrete
in-range input `(0.9, 0.1)` and the out-of-range input `(1.5, 0.5)`. -/
theorem c7_cell_mapping_witness :
    getCellIndex (9/10) (1/10) = ⌊(1/10 : ℚ) * 3⌋ * 3 + ⌊(1 - 9/10 : ℚ) * 3⌋ ∧
    getCellIndex (15/10) (5/10) = -1 := by
  refine ⟨(c7_cell_mapping (9/10) (1/10)).1 (by norm_num) (by norm_num)
    (by norm_num) (by norm_num), ?_⟩
  exact (c7_cell_mapping (15/10) (5/10)).2.1 (by norm_num)

/-- C5. Raw classification: an extended-finger count ≤ 1 yields FIST
unconditionally (FIST is tested before PINCH); otherwise PINCH holds
exactly under the two-threshold hysteresis on the thumb-tip/index-tip
distance (start `0.06`; once pinching, persist while the distance is
below `0.10`); otherwise a count ≥ 4 yields OPEN (PINCH is tested before
OPEN); and when no test — including the shape-based PEACE / THUMBS_UP /
POINTING / ROCK patterns — matches, NONE is returned. -/
theorem c5_classification : ∀ (fs : FingerStates) (d : ℚ) (w : Bool),
    (extendedCount fs ≤ 1 → (classifyGesture fs d w).type = .FIST) ∧
    (1 < extendedCount fs →
      ((classifyGesture fs d w).type = .PINCH ↔ pinchCond d w)) ∧
    (1 < extendedCount fs → ¬ pinchCond d w → 4 ≤ extendedCount fs →
      (classifyGesture fs d w).type = .OPEN) ∧
    (1 < extendedCount fs → ¬ pinchCond d w → extendedCount fs < 4 →
      ¬(fs.index ∧ fs.middle ∧ ¬fs.ring ∧ ¬fs.pinky) →
      ¬(fs.thumb ∧ ¬fs.index ∧ ¬fs.middle ∧ ¬fs.ring ∧ ¬fs.pinky) →
      ¬(¬fs.thumb ∧ fs.index ∧ ¬fs.middle ∧ ¬fs.ring ∧ ¬fs.pinky) →
      ¬(fs.index ∧ ¬fs.middle ∧ ¬fs.ring ∧ fs.pinky) →
      (classifyGesture fs d w).type = .NONE) := by
  intro fs d w
  unfold classifyGesture pinchCond
  split_ifs with h1 h2 h3 h4 h5 h6 h7 <;> simp_all

/-- C5 (witness). The classification law evaluated at concrete
inputs: a fist (no fingers extended, any pinch distance) classifies FIST;
an open hand at distance `0.2` (not pinching before) classifies OPEN; two
extended fingers at distance `0.05` classify PINCH; middle+ring at
distance `0.2` matches no pattern and classifies NONE. -/
theorem c5_classification_witness :
    (classifyGesture ⟨false, false, false, false, false⟩ (5/100) false).type
      = .FIST ∧
    ((classifyGesture ⟨true, true, true, true, true⟩ (2/10) false).type
      = .OPEN) ∧
    ((classifyGesture ⟨true, true, false, false, false⟩ (5/100) false).type
      = .PINCH) ∧
    ((classifyGesture ⟨false, false, true, true, false⟩ (2/10) false).type
      = .NONE) := by
  have hno : ¬ pinchCond (2/10) false := by
    norm_num [pinchCond, pinchStartThreshold]
  have hyes : pinchCond (5/100) false := by
    norm_num [pinchCond, pinchStartThreshold]
  refine ⟨(c5_classification _ _ _).1 (by decide), ?_, ?_, ?_⟩
  · exact (c5_classification _ (2/10) false).2.2.1 (by decide) hno (by decide)
  · exact ((c5_classification _ (5/100) false).2.1 (by decide)).mpr hyes
  · exact (c5_classification _ (2/10) false).2.2.2 (by decide) hno
      (by decide) (by decide) (by decide) (by decide) (by decide)

/-! ### Hysteresis lemmas -/

lemma mem_firstOccs_foldl (l acc : List GestureType) (x : GestureType) :
    (x ∈ l.foldl (fun a t => if t ∈ a then a else a ++ [t]) acc) ↔
      x ∈ acc ∨ x ∈ l := by
  induction l generalizing acc with
  | nil => simp
  | cons t l ih =>
    simp only [List.foldl_cons]
    by_cases h : t ∈ acc
    · rw [if_pos h, ih]
      simp only [List.mem_cons]
      constructor
      · rintro (hx | hx)
        · exact Or.inl hx
        · exact Or.inr (Or.inr hx)
      · rintro (hx | hx | hx)
        · exact Or.inl hx
        · exact Or.inl (hx ▸ h)
        · exact Or.inr hx
    · rw [if_neg h, ih]
      simp [List.mem_append, List.mem_cons]
      tauto

lemma mem_firstOccs (l : List GestureType) (x : GestureType) :
    x ∈ firstOccs l ↔ x ∈ l := by
  unfold firstOccs
  rw [mem_firstOccs_foldl]
  simp

lemma modalScan_foldl_spec (h : List GestureType) (l : List GestureType) :
    ∀ acc : GestureType × ℕ,
      (∀ t ∈ l, h.count t ≤
        (l.foldl (fun a t => if a.2 < h.count t then (t, h.count t) else a)
          acc).2) ∧
      ((l.foldl (fun a t => if a.2 < h.count t then (t, h.count t) else a)
          acc) = acc ∨
       ((l.foldl (fun a t => if a.2 < h.count t then (t, h.count t) else a)
          acc).1 ∈ l ∧
        h.count (l.foldl
          (fun a t => if a.2 < h.count t then (t, h.count t) else a) acc).1 =
        (l.foldl (fun a t => if a.2 < h.count t then (t, h.count t) else a)
          acc).2)) ∧
      acc.2 ≤
        (l.foldl (fun a t => if a.2 < h.count t then (t, h.count t) else a)
          acc).2 := by
  induction l with
  | nil => intro acc; exact ⟨by simp, Or.inl rfl, le_refl _⟩
  | cons t l ih =>
    intro acc
    simp only [List.foldl_cons]
    obtain ⟨ih1, ih2, ih3⟩ :=
      ih (if acc.2 < h.count t then (t, h.count t) else acc)
    refine ⟨?_, ?_, ?_⟩
    · intro u hu
      rcases List.mem_cons.mp hu with hu | hu
      · subst hu
        refine le_trans ?_ ih3
        by_cases hc : acc.2 < h.count u
        · rw [if_pos hc]
        · rw [if_neg hc]; omega
      · exact ih1 u hu
    · rcases ih2 with h2 | h2
      · rw [h2]
        by_cases hc : acc.2 < h.count t
        · rw [if_pos hc]
          exact Or.inr ⟨List.mem_cons_self _ _, rfl⟩
        · rw [if_neg hc]
          exact Or.inl rfl
      · exact Or.inr ⟨List.mem_cons_of_mem _ h2.1, h2.2⟩
    · refine le_trans ?_ ih3
      by_cases hc : acc.2 < h.count t
      · rw [if_pos hc]; omega
      · rw [if_neg hc]

lemma modalScan_spec (h : List GestureType) (init : GestureType) :
    (∀ t ∈ h, h.count t ≤ (modalScan h init).2) ∧
    ((modalScan h init).2 = 0 ∨
      h.count (modalScan h init).1 = (modalScan h init).2) := by
  obtain ⟨h1, h2, _⟩ := modalScan_foldl_spec h (firstOccs h) (init, 0)
  unfold modalScan
  refine ⟨fun t ht => h1 t ((mem_firstOccs h t).mpr ht), ?_⟩
  rcases h2 with h2 | h2
  · rw [h2]; exact Or.inl rfl
  · exact Or.inr h2.2

lemma count_add_count_le_length (l : List GestureType) {a b : GestureType}
    (hab : a ≠ b) : l.count a + l.count b ≤ l.length := by
  induction l with
  | nil => simp
  | cons x l ih =>
    simp only [List.count_cons, List.length_cons, beq_iff_eq]
    split_ifs with h1 h2 <;>
      first
        | (subst_vars; exact absurd rfl hab)
        | omega

lemma pushHistory_length_le (history : List GestureType) (t : GestureType)
    (h : history.length ≤ 3) : (pushHistory history t).length ≤ 3 := by
  simp only [pushHistory, historySize]
  split_ifs with hl
  · simp only [List.length_tail, List.length_append, List.length_singleton]
    omega
  · simp only [List.length_append, List.length_singleton] at *
    omega

/-- Unfolded form of `applyHysteresis` without the `let`s. -/
lemma applyHysteresis_eq (history : List GestureType) (g : Gesture) :
    applyHysteresis history g =
      (if (historySize + 1) / 2 ≤
          (modalScan (pushHistory history g.type) g.type).2
       then { g with type := (modalScan (pushHistory history g.type) g.type).1 }
       else g,
       pushHistory history g.type) := rfl

/-- C4. The temporal hysteresis step pushes the raw type into the
hand slot's ring buffer, whose length stays ≤ 3; if some type reaches
count ≥ ⌈3/2⌉ = 2 in the buffer (necessarily the unique most frequent
type) the emitted gesture carries that type, and if every type occurs at
most once the raw gesture is emitted unchanged; in particular the raw
sequence [FIST, OPEN, FIST] fed from an empty history emits FIST on the
third frame. -/
theorem c4_hysteresis :
    (∀ (history : List GestureType) (g : Gesture) (t : GestureType),
      history.length ≤ 3 →
      ((applyHysteresis history g).2 = pushHistory history g.type ∧
       (applyHysteresis history g).2.length ≤ 3) ∧
      (2 ≤ (pushHistory history g.type).count t →
        (applyHysteresis history g).1.type = t) ∧
      ((∀ u, (pushHistory history g.type).count u ≤ 1) →
        (applyHysteresis history g).1 = g)) ∧
    emitSeq [.FIST, .OPEN, .FIST] = [.FIST, .OPEN, .FIST] := by
  constructor
  · intro history g t hlen
    set h := pushHistory history g.type with hh
    have hhlen : h.length ≤ 3 := pushHistory_length_le history g.type hlen
    obtain ⟨hmax, hval⟩ := modalScan_spec h g.type
    refine ⟨⟨rfl, hhlen⟩, ?_, ?_⟩
    · intro hcount
      have htmem : t ∈ h := by
        have : 0 < h.count t := by omega
        exact List.count_pos_iff.mp this
      have hge : 2 ≤ (modalScan h g.type).2 := le_trans hcount (hmax t htmem)
      have hvt : h.count (modalScan h g.type).1 = (modalScan h g.type).2 := by
        rcases hval with h0 | h0
        · omega
        · exact h0
      have heq : (modalScan h g.type).1 = t := by
        by_contra hne
        have := count_add_count_le_length h hne
        omega
      rw [applyHysteresis_eq, ← hh]
      rw [if_pos (show (historySize + 1) / 2 ≤ (modalScan h g.type).2 by
        unfold historySize; omega)]
      exact heq
    · intro hall
      have hlt : (modalScan h g.type).2 < 2 := by
        rcases hval with h0 | h0
        · omega
        · have := hall (modalScan h g.type).1
          omega
      rw [applyHysteresis_eq, ← hh]
      rw [if_neg (show ¬ (historySize + 1) / 2 ≤ (modalScan h g.type).2 by
        unfold historySize; omega)]
  · decide

/-- C4 (witness). The hysteresis law at the concrete buffer
`[FIST, OPEN]` receiving raw `FIST`: the pushed buffer `[FIST, OPEN,
FIST]` has FIST count 2, so the emitted type is FIST; and with buffer
`[FIST, OPEN]` receiving raw `PEACE` every count is 1, so the raw gesture
passes through. -/
theorem c4_hysteresis_witness :
    (applyHysteresis [.FIST, .OPEN] ⟨.FIST, 9/10⟩).1.type = .FIST ∧
    (applyHysteresis [.FIST, .OPEN] ⟨.PEACE, 85/100⟩).1 = ⟨.PEACE, 85/100⟩ := by
  constructor
  · exact (c4_hysteresis.1 [.FIST, .OPEN] ⟨.FIST, 9/10⟩ .FIST
      (by decide)).2.1 (by decide)
  · exact (c4_hysteresis.1 [.FIST, .OPEN] ⟨.PEACE, 85/100⟩ .PEACE
      (by decide)).2.2 (by intro u; cases u <;> decide)

/-! ### Association-list lemmas -/

section AssocLemmas

variable {α β : Type} [DecidableEq α]

lemma eraseA_cons_self (k : α) (v : β) (m : List (α × β)) :
    eraseA ((k, v) :: m) k = eraseA m k := by
  simp [eraseA, List.filter_cons]

lemma eraseA_cons_ne {k k1 : α} (v : β) (m : List (α × β)) (h : k1 ≠ k) :
    eraseA ((k1, v) :: m) k = (k1, v) :: eraseA m k := by
  simp [eraseA, List.filter_cons, h]

lemma lookupA_cons (k1 : α) (v : β) (m : List (α × β)) (k : α) :
    lookupA ((k1, v) :: m) k = if k1 = k then some v else lookupA m k := rfl

lemma lookupA_eraseA_self (m : List (α × β)) (k : α) :
    lookupA (eraseA m k) k = none := by
  induction m with
  | nil => rfl
  | cons p rest ih =>
    obtain ⟨k1, v1⟩ := p
    by_cases h : k1 = k
    · subst h
      rw [eraseA_cons_self]
      exact ih
    · rw [eraseA_cons_ne v1 rest h, lookupA_cons, if_neg h]
      exact ih

lemma lookupA_eraseA_ne (m : List (α × β)) {k k' : α} (h : k' ≠ k) :
    lookupA (eraseA m k) k' = lookupA m k' := by
  induction m with
  | nil => rfl
  | cons p rest ih =>
    obtain ⟨k1, v1⟩ := p
    by_cases h1 : k1 = k
    · subst h1
      rw [eraseA_cons_self, lookupA_cons,
        if_neg (fun hk => h hk.symm)]
      exact ih
    · rw [eraseA_cons_ne v1 rest h1, lookupA_cons, lookupA_cons]
      by_cases h2 : k1 = k'
      · rw [if_pos h2, if_pos h2]
      · rw [if_neg h2, if_neg h2]
        exact ih

lemma lookupA_setA_self (m : List (α × β)) (k : α) (v : β) :
    lookupA (setA m k v) k = some v := by
  simp [setA, lookupA]

lemma lookupA_setA_ne (m : List (α × β)) {k k' : α} (v : β) (h : k' ≠ k) :
    lookupA (setA m k v) k' = lookupA m k' := by
  rw [setA, lookupA_cons, if_neg (fun hk => h hk.symm)]
  exact lookupA_eraseA_ne m h

lemma lookupA_eq_none_of_not_mem (m : List (α × β)) {k : α}
    (h : k ∉ m.map Prod.fst) : lookupA m k = none := by
  induction m with
  | nil => rfl
  | cons p rest ih =>
    obtain ⟨k1, v1⟩ := p
    simp only [List.map_cons, List.mem_cons] at h
    push_neg at h
    rw [lookupA_cons, if_neg (fun hk => h.1 hk.symm)]
    exact ih h.2

lemma eraseA_of_not_mem (m : List (α × β)) {k : α}
    (h : k ∉ m.map Prod.fst) : eraseA m k = m := by
  induction m with
  | nil => rfl
  | cons p rest ih =>
    obtain ⟨k1, v1⟩ := p
    simp only [List.map_cons, List.mem_cons] at h
    push_neg at h
    rw [eraseA_cons_ne v1 rest (fun hk => h.1 hk.symm), ih h.2]

lemma nodup_keys_eraseA (m : List (α × β)) (k : α)
    (h : (m.map Prod.fst).Nodup) : ((eraseA m k).map Prod.fst).Nodup :=
  List.Nodup.sublist (List.Sublist.map Prod.fst (List.filter_sublist m)) h

lemma not_mem_keys_eraseA (m : List (α × β)) (k : α) :
    k ∉ (eraseA m k).map Prod.fst := by
  intro hmem
  obtain ⟨p, hp, hpk⟩ := List.mem_map.mp hmem
  have := (List.mem_filter.mp hp).2
  simp [hpk] at this

lemma nodup_keys_setA (m : List (α × β)) (k : α) (v : β)
    (h : (m.map Prod.fst).Nodup) : ((setA m k v).map Prod.fst).Nodup := by
  simp only [setA, List.map_cons]
  exact List.Nodup.cons (not_mem_keys_eraseA m k) (nodup_keys_eraseA m k h)

omit [DecidableEq α] in
lemma sumVal_cons (p : α × β) (m : List (α × β)) (f : β → ℕ) :
    sumVal (p :: m) f = f p.2 + sumVal m f := by
  simp [sumVal]

lemma sumVal_setA (m : List (α × β)) (k : α) (v : β) (f : β → ℕ) :
    sumVal (setA m k v) f = f v + sumVal (eraseA m k) f := by
  simp [setA, sumVal]

lemma sumVal_eraseA (m : List (α × β)) {k : α} {v : β} (f : β → ℕ)
    (hnd : (m.map Prod.fst).Nodup) (h : lookupA m k = some v) :
    sumVal m f = f v + sumVal (eraseA m k) f := by
  induction m with
  | nil => simp [lookupA] at h
  | cons p rest ih =>
    obtain ⟨k1, v1⟩ := p
    simp only [List.map_cons, List.nodup_cons] at hnd
    by_cases hp : k1 = k
    · subst hp
      rw [lookupA_cons, if_pos rfl] at h
      rw [eraseA_cons_self, eraseA_of_not_mem rest hnd.1, sumVal_cons]
      simp only [Option.some_inj] at h
      rw [h]
    · rw [lookupA_cons, if_neg hp] at h
      rw [eraseA_cons_ne v1 rest hp, sumVal_cons, sumVal_cons,
        ih hnd.2 h]
      omega

end AssocLemmas

/-! ### Grid state machine: invariant preservation -/

lemma not_mem_keys_of_lookupA_none {α β : Type} [DecidableEq α]
    (m : List (α × β)) {k : α} (h : lookupA m k = none) :
    k ∉ m.map Prod.fst := by
  induction m with
  | nil => simp
  | cons p rest ih =>
    obtain ⟨k1, v1⟩ := p
    rw [lookupA_cons] at h
    by_cases hk : k1 = k
    · rw [if_pos hk] at h; exact absurd h (by simp)
    · rw [if_neg hk] at h
      simp only [List.map_cons, List.mem_cons]
      push_neg
      exact ⟨fun hk' => hk hk'.symm, ih h⟩

lemma dropLast_append_of_getLast? {l : List ℕ} {el : ℕ}
    (h : l.getLast? = some el) : l.dropLast ++ [el] = l := by
  have hne : l ≠ [] := by
    intro h0
    subst h0
    simp at h
  have hel : l.getLast hne = el := by
    rwa [List.getLast?_eq_getLast l hne, Option.some_inj] at h
  rw [← hel]
  exact List.dropLast_append_getLast hne

lemma count_dropLast_of_getLast? {l : List ℕ} {el : ℕ} (o : ℕ)
    (h : l.getLast? = some el) :
    l.count o = l.dropLast.count o + (if el = o then 1 else 0) := by
  conv_lhs => rw [← dropLast_append_of_getLast? h]
  rw [List.count_append]
  congr 1
  simp [List.count_singleton', beq_iff_eq]

lemma Inv_grabObject (s : GridState) (i : ℕ) (c : ℤ)
    (hheld : lookupA s.heldObjects i = none) (h : Inv s) :
    Inv (grabObject s i c) := by
  obtain ⟨hnc, hnh, hcount⟩ := h
  unfold grabObject
  split
  · exact ⟨hnc, hnh, hcount⟩
  · rename_i arr hlk
    split
    · exact ⟨hnc, hnh, hcount⟩
    · rename_i el hgl
      show Inv
        { cellObjects :=
            if arr.dropLast.isEmpty then eraseA s.cellObjects c
            else setA s.cellObjects c arr.dropLast,
          heldObjects := setA s.heldObjects i ⟨el, c⟩ }
      have herase : eraseA s.heldObjects i = s.heldObjects :=
        eraseA_of_not_mem _ (not_mem_keys_of_lookupA_none _ hheld)
      have hcellsplit : ∀ o, cellCount s.cellObjects o =
          arr.count o + cellCount (eraseA s.cellObjects c) o :=
        fun o => sumVal_eraseA s.cellObjects (fun a => a.count o) hnc hlk
      have harr : ∀ o, arr.count o =
          arr.dropLast.count o + (if el = o then 1 else 0) :=
        fun o => count_dropLast_of_getLast? o hgl
      refine ⟨?_, ?_, ?_⟩
      · by_cases hrest : arr.dropLast.isEmpty
        · simpa [hrest] using nodup_keys_eraseA s.cellObjects c hnc
        · simpa [hrest] using nodup_keys_setA s.cellObjects c arr.dropLast hnc
      · exact nodup_keys_setA s.heldObjects i ⟨el, c⟩ hnh
      · intro o
        have hnew : heldCount (setA s.heldObjects i ⟨el, c⟩) o =
            (if el = o then 1 else 0) + heldCount s.heldObjects o := by
          unfold heldCount
          rw [sumVal_setA, herase]
        by_cases hrest : arr.dropLast.isEmpty
        · have harr0 : arr.count o = (if el = o then 1 else 0) := by
            rw [harr o, List.isEmpty_iff.mp hrest]
            simp
          have := hcount o
          rw [hcellsplit o, harr0] at this
          simp only [if_pos hrest, hnew]
          omega
        · have hnewcell : cellCount (setA s.cellObjects c arr.dropLast) o =
              arr.dropLast.count o + cellCount (eraseA s.cellObjects c) o := by
            unfold cellCount
            rw [sumVal_setA]
          have := hcount o
          rw [hcellsplit o, harr o] at this
          simp only [if_neg hrest, hnew, hnewcell]
          omega

lemma count_one (a o : ℕ) : ([a] : List ℕ).count o = if a = o then 1 else 0 := by
  by_cases h : a = o
  · subst h
    simp
  · simp [List.count_singleton', beq_iff_eq, fun h' : o = a => h h'.symm]

lemma Inv_dropObject (s : GridState) (i : ℕ) (c : ℤ) (h : Inv s) :
    Inv (dropObject s i c) := by
  obtain ⟨hnc, hnh, hcount⟩ := h
  unfold dropObject
  split
  · exact ⟨hnc, hnh, hcount⟩
  · rename_i hd hlk
    show Inv
      { cellObjects :=
          setA s.cellObjects c ((lookupA s.cellObjects c).getD [] ++ [hd.element]),
        heldObjects := eraseA s.heldObjects i }
    have hheldsplit : ∀ o, heldCount s.heldObjects o =
        (if hd.element = o then 1 else 0) + heldCount (eraseA s.heldObjects i) o :=
      fun o => sumVal_eraseA s.heldObjects
        (fun x => if x.element = o then 1 else 0) hnh hlk
    refine ⟨nodup_keys_setA _ _ _ hnc, nodup_keys_eraseA _ _ hnh, ?_⟩
    intro o
    have hcells0 : cellCount s.cellObjects o =
        ((lookupA s.cellObjects c).getD []).count o +
          cellCount (eraseA s.cellObjects c) o := by
      cases hc : lookupA s.cellObjects c with
      | none =>
        unfold cellCount
        rw [eraseA_of_not_mem _ (not_mem_keys_of_lookupA_none _ hc)]
        simp
      | some arr =>
        simpa using sumVal_eraseA s.cellObjects (fun a => a.count o) hnc hc
    have hnewcell : cellCount
        (setA s.cellObjects c ((lookupA s.cellObjects c).getD [] ++ [hd.element])) o =
        ((lookupA s.cellObjects c).getD []).count o +
          (if hd.element = o then 1 else 0) +
          cellCount (eraseA s.cellObjects c) o := by
      unfold cellCount
      rw [sumVal_setA]
      simp only [List.count_append, count_one]
    have := hcount o
    rw [hheldsplit o, hcells0] at this
    simp only [hnewcell]
    omega

lemma Inv_processHand (s : GridState) (i : ℕ) (inp : HandInput)
    (h : Inv s) : Inv (processHand s i inp) := by
  simp only [processHand]
  split_ifs with h1 h2 h3
  · exact Inv_dropObject _ _ _ (Inv_grabObject _ _ _ h1.2.1 h)
  · exact Inv_grabObject _ _ _ h1.2.1 h
  · exact Inv_dropObject _ _ _ h
  · exact h

lemma Inv_processHands (s : GridState) (hands : List HandInput)
    (h : Inv s) : Inv (processHands s hands) := by
  unfold processHands
  generalize hands.enum = l
  induction l generalizing s with
  | nil => exact h
  | cons p l ih =>
    simpa only [List.foldl_cons] using ih _ (Inv_processHand s p.1 p.2 h)

lemma Inv_initState : Inv initState := by
  refine ⟨by decide, by decide, ?_⟩
  intro o
  match o with
  | 0 => decide
  | 1 => decide
  | n + 2 =>
    simp only [initState, cellCount, heldCount, sumVal, List.map_cons,
      List.map_nil, List.sum_cons, List.sum_nil]
    have h0 : ([0] : List ℕ).count (n + 2) = 0 := by
      simp [List.count_singleton', beq_iff_eq]
    have h1 : ([1] : List ℕ).count (n + 2) = 0 := by
      simp [List.count_singleton', beq_iff_eq]
    rw [h0, h1, if_neg (by omega)]
    omega

lemma Inv_run (trace : List (List HandInput)) : Inv (run trace) := by
  unfold run
  have haux : ∀ (t : List (List HandInput)) (s : GridState), Inv s →
      Inv (t.foldl processHands s) := by
    intro t
    induction t with
    | nil => exact fun s hs => hs
    | cons f t ih =>
      intro s hs
      simpa only [List.foldl_cons] using ih _ (Inv_processHands s f hs)
  exact haux trace initState Inv_initState

/-- C1. From the initial placement, after any sequence of frames
(each frame processing any hand inputs through the grab/drop state
machine): every object of the scene occurs exactly once across cell
collections and hand slots (never both resting and held, never lost, and
a fortiori in at most one cell and at most one hand slot — so no cell
collection contains a held object and a hand slot holds at most one
object). -/
theorem c1_ownership_invariant : ∀ trace : List (List HandInput),
    (∀ o : ℕ, o < 2 →
      cellCount (run trace).cellObjects o +
        heldCount (run trace).heldObjects o = 1) ∧
    (∀ o : ℕ, cellCount (run trace).cellObjects o ≤ 1 ∧
      heldCount (run trace).heldObjects o ≤ 1) ∧
    (∀ o : ℕ, ¬(1 ≤ cellCount (run trace).cellObjects o ∧
      1 ≤ heldCount (run trace).heldObjects o)) := by
  intro trace
  obtain ⟨-, -, hcount⟩ := Inv_run trace
  refine ⟨fun o ho => ?_, fun o => ?_, fun o => ?_⟩
  · have := hcount o
    rwa [if_pos ho] at this
  · have := hcount o
    split_ifs at this <;> omega
  · have := hcount o
    rintro ⟨h1, h2⟩
    split_ifs at this <;> omega

/-! ### Grab/drop characterization -/

lemma grabObject_eq (s : GridState) (i : ℕ) (c : ℤ) (arr : List ℕ) (el : ℕ)
    (hlk : lookupA s.cellObjects c = some arr) (hgl : arr.getLast? = some el) :
    grabObject s i c =
      { cellObjects :=
          if arr.dropLast.isEmpty then eraseA s.cellObjects c
          else setA s.cellObjects c arr.dropLast,
        heldObjects := setA s.heldObjects i ⟨el, c⟩ } := by
  simp only [grabObject, hlk, hgl]

lemma dropObject_eq (s : GridState) (i : ℕ) (c : ℤ) (hd : Held)
    (hlk : lookupA s.heldObjects i = some hd) :
    dropObject s i c =
      { cellObjects :=
          setA s.cellObjects c ((lookupA s.cellObjects c).getD [] ++ [hd.element]),
        heldObjects := eraseA s.heldObjects i } := by
  simp only [dropObject, hlk]

lemma getCellIndex_range (x y : ℚ) :
    getCellIndex x y = -1 ∨ (0 ≤ getCellIndex x y ∧ getCellIndex x y < 9) := by
  simp only [getCellIndex, gridCols, gridRows]
  split_ifs with h
  · exact Or.inl rfl
  · push_neg at h
    right
    omega

/-- With a FIST input, `processHand` performs exactly the grab branch. -/
lemma processHand_fist (s : GridState) (i : ℕ) (inp : HandInput)
    (hF : inp.type = GestureType.FIST) :
    processHand s i inp =
      (if lookupA s.heldObjects i = none ∧ 0 ≤ getCellIndex inp.x inp.y ∧
          ((lookupA s.cellObjects (getCellIndex inp.x inp.y)).getD []) ≠ []
       then grabObject s i (getCellIndex inp.x inp.y) else s) := by
  simp only [processHand]
  rw [if_neg (fun hq => by rw [hF] at hq; exact absurd hq.1 (by decide))]
  by_cases h1 : lookupA s.heldObjects i = none ∧ 0 ≤ getCellIndex inp.x inp.y ∧
      ((lookupA s.cellObjects (getCellIndex inp.x inp.y)).getD []) ≠ []
  · rw [if_pos ⟨hF, h1⟩, if_pos h1]
  · rw [if_neg (fun hq => h1 hq.2), if_neg h1]

/-- C2 (counterexample). Grab is level-triggered on FIST, not
edge-triggered: with the hand emitting FIST in frame 1 over empty cell 8
(palm (0.25, 0.75)) and again FIST in frame 2 over non-empty cell 0
(palm (0.9, 0.1)), the grab fires in frame 2 even though the emitted
gesture type did not transition into FIST in that frame (it was already
FIST in frame 1, which changed nothing). -/
theorem c2_counterexample :
    processHands initState [⟨.FIST, 25/100, 75/100⟩] = initState ∧
    lookupA (processHands (processHands initState [⟨.FIST, 25/100, 75/100⟩])
      [⟨.FIST, 9/10, 1/10⟩]).heldObjects 0 = some ⟨0, 0⟩ := by
  have hps : ∀ (s : GridState) (inp : HandInput),
      processHands s [inp] = processHand s 0 inp := fun s inp => rfl
  have hc8 : getCellIndex (25/100) (75/100) = 8 := by
    norm_num [getCellIndex, gridCols, gridRows]
  have hc0 : getCellIndex (9/10) (1/10) = 0 := by
    norm_num [getCellIndex, gridCols, gridRows]
  have h1 : processHands initState [⟨.FIST, 25/100, 75/100⟩] = initState := by
    rw [hps, processHand_fist _ _ _ rfl]
    rw [show (⟨.FIST, 25/100, 75/100⟩ : HandInput).x = 25/100 from rfl,
      show (⟨.FIST, 25/100, 75/100⟩ : HandInput).y = 75/100 from rfl, hc8]
    rw [if_neg]
    decide
  refine ⟨h1, ?_⟩
  rw [h1, hps, processHand_fist _ _ _ rfl]
  rw [show (⟨.FIST, 9/10, 1/10⟩ : HandInput).x = 9/10 from rfl,
    show (⟨.FIST, 9/10, 1/10⟩ : HandInput).y = 1/10 from rfl, hc0]
  rw [if_pos (by decide)]
  decide

/-- C2 (amended). In the grid variant, a grab for a hand slot fires
in a frame exactly when the emitted gesture type *is* FIST in that frame
(level-triggered — no transition into FIST is required), the hand slot
currently holds nothing, the palm-center cell index is ≥ 0 (by the range
of `getCellIndex` it is then in 0..8), and that cell's collection exists
and is non-empty; its effect is to pop the last-inserted (top) object
from that cell's collection — the slot then holds it — deleting the
cell's entry if the collection becomes empty, and leaving every other
cell untouched. -/
theorem c2_grab_rule (s : GridState) (i : ℕ) (inp : HandInput)
    (hF : inp.type = GestureType.FIST) :
    (0 ≤ getCellIndex inp.x inp.y → getCellIndex inp.x inp.y < 9) ∧
    (∀ arr el,
      lookupA s.heldObjects i = none →
      0 ≤ getCellIndex inp.x inp.y →
      lookupA s.cellObjects (getCellIndex inp.x inp.y) = some arr →
      arr.getLast? = some el →
      lookupA (processHand s i inp).heldObjects i =
        some ⟨el, getCellIndex inp.x inp.y⟩ ∧
      lookupA (processHand s i inp).cellObjects (getCellIndex inp.x inp.y) =
        (if arr.dropLast.isEmpty then none else some arr.dropLast) ∧
      (∀ c', c' ≠ getCellIndex inp.x inp.y →
        lookupA (processHand s i inp).cellObjects c' =
          lookupA s.cellObjects c')) ∧
    ((¬ lookupA s.heldObjects i = none ∨ getCellIndex inp.x inp.y < 0 ∨
        (lookupA s.cellObjects (getCellIndex inp.x inp.y)).getD [] = []) →
      processHand s i inp = s) := by
  refine ⟨?_, ?_, ?_⟩
  · intro h0
    rcases getCellIndex_range inp.x inp.y with h | h
    · omega
    · exact h.2
  · intro arr el hheld hc0 hlk hgl
    have hne : (lookupA s.cellObjects (getCellIndex inp.x inp.y)).getD [] ≠ [] := by
      rw [hlk]
      intro h0
      rw [Option.getD_some] at h0
      rw [h0] at hgl
      simp at hgl
    rw [processHand_fist s i inp hF, if_pos ⟨hheld, hc0, hne⟩,
      grabObject_eq s i _ arr el hlk hgl]
    refine ⟨lookupA_setA_self _ _ _, ?_, ?_⟩
    · show lookupA
        (if arr.dropLast.isEmpty then eraseA s.cellObjects _
         else setA s.cellObjects _ arr.dropLast) _ = _
      split_ifs with hre
      · exact lookupA_eraseA_self _ _
      · exact lookupA_setA_self _ _ _
    · intro c' hc'
      show lookupA
        (if arr.dropLast.isEmpty then eraseA s.cellObjects _
         else setA s.cellObjects _ arr.dropLast) c' = _
      split_ifs with hre
      · exact lookupA_eraseA_ne _ hc'
      · exact lookupA_setA_ne _ _ hc'
  · intro hfail
    rw [processHand_fist s i inp hF, if_neg]
    rintro ⟨h1, h2, h3⟩
    rcases hfail with h | h | h
    · exact h h1
    · omega
    · exact h3 h

/-- C2 (witness). The grab rule evaluated on the initial state with
hand 0 emitting FIST at palm (0.9, 0.1) (cell 0, holding object 0): the
slot ends up holding object 0 from cell 0, cell 0's entry is deleted
(collection became empty), and cell 4 is untouched. -/
theorem c2_grab_rule_witness :
    lookupA (processHand initState 0 ⟨.FIST, 9/10, 1/10⟩).heldObjects 0 =
      some ⟨0, getCellIndex (9/10) (1/10)⟩ ∧
    lookupA (processHand initState 0 ⟨.FIST, 9/10, 1/10⟩).cellObjects
      (getCellIndex (9/10) (1/10)) = none ∧
    lookupA (processHand initState 0 ⟨.FIST, 9/10, 1/10⟩).cellObjects 4 =
      lookupA initState.cellObjects 4 := by
  have hc0 : getCellIndex (9/10) (1/10) = 0 := by
    norm_num [getCellIndex, gridCols, gridRows]
  have h := (c2_grab_rule initState 0 ⟨.FIST, 9/10, 1/10⟩ rfl).2.1 [0] 0
    rfl (by rw [show (⟨.FIST, 9/10, 1/10⟩ : HandInput).x = 9/10 from rfl,
          show (⟨.FIST, 9/10, 1/10⟩ : HandInput).y = 1/10 from rfl, hc0])
    (by rw [show (⟨.FIST, 9/10, 1/10⟩ : HandInput).x = 9/10 from rfl,
          show (⟨.FIST, 9/10, 1/10⟩ : HandInput).y = 1/10 from rfl, hc0]; rfl)
    rfl
  refine ⟨h.1, ?_, ?_⟩
  · have := h.2.1
    simpa using this
  · have := h.2.2 4 (by
      rw [show (⟨.FIST, 9/10, 1/10⟩ : HandInput).x = 9/10 from rfl,
        show (⟨.FIST, 9/10, 1/10⟩ : HandInput).y = 1/10 from rfl, hc0]
      decide)
    exact this

/-- C8. Grab-then-drop into the same cell is a round trip: from any
state where cell `c`'s collection is non-empty (top object `el`) and hand
slot `i` is free, grabbing with hand `i` from `c` and then dropping back
into `c` restores every cell's collection and every hand slot exactly,
and the grabbed object `el` comes back as the new top of its original
cell. -/
theorem c8_grab_drop_roundtrip (s : GridState) (i : ℕ) (c : ℤ)
    (arr : List ℕ) (el : ℕ)
    (hlk : lookupA s.cellObjects c = some arr)
    (hgl : arr.getLast? = some el)
    (hheld : lookupA s.heldObjects i = none) :
    (∀ c', lookupA (dropObject (grabObject s i c) i c).cellObjects c' =
      lookupA s.cellObjects c') ∧
    (∀ j, lookupA (dropObject (grabObject s i c) i c).heldObjects j =
      lookupA s.heldObjects j) ∧
    lookupA (dropObject (grabObject s i c) i c).cellObjects c =
      some (arr.dropLast ++ [el]) := by
  have hgo := grabObject_eq s i c arr el hlk hgl
  have hgheld : lookupA (grabObject s i c).heldObjects i = some ⟨el, c⟩ := by
    rw [hgo]
    exact lookupA_setA_self _ _ _
  have hdo := dropObject_eq (grabObject s i c) i c ⟨el, c⟩ hgheld
  have hgetD : (lookupA (grabObject s i c).cellObjects c).getD [] =
      arr.dropLast := by
    rw [hgo]
    show ((lookupA
      (if arr.dropLast.isEmpty then eraseA s.cellObjects c
       else setA s.cellObjects c arr.dropLast) c).getD []) = _
    split_ifs with hre
    · rw [lookupA_eraseA_self, Option.getD_none, List.isEmpty_iff.mp hre]
    · rw [lookupA_setA_self, Option.getD_some]
  have hcellc : lookupA (dropObject (grabObject s i c) i c).cellObjects c =
      some (arr.dropLast ++ [el]) := by
    rw [hdo]
    show lookupA (setA (grabObject s i c).cellObjects c
      ((lookupA (grabObject s i c).cellObjects c).getD [] ++ [(⟨el, c⟩ : Held).element])) c = _
    rw [lookupA_setA_self, hgetD]
  refine ⟨?_, ?_, hcellc⟩
  · intro c'
    by_cases hc' : c' = c
    · subst hc'
      rw [hcellc, dropLast_append_of_getLast? hgl, hlk]
    · rw [hdo]
      show lookupA (setA (grabObject s i c).cellObjects c _) c' = _
      rw [lookupA_setA_ne _ _ hc', hgo]
      show lookupA
        (if arr.dropLast.isEmpty then eraseA s.cellObjects c
         else setA s.cellObjects c arr.dropLast) c' = _
      split_ifs with hre
      · exact lookupA_eraseA_ne _ hc'
      · exact lookupA_setA_ne _ _ hc'
  · intro j
    by_cases hj : j = i
    · subst hj
      rw [hdo]
      show lookupA (eraseA (grabObject s j c).heldObjects j) j = _
      rw [lookupA_eraseA_self, hheld]
    · rw [hdo]
      show lookupA (eraseA (grabObject s i c).heldObjects i) j = _
      rw [lookupA_eraseA_ne _ hj, hgo]
      show lookupA (setA s.heldObjects i ⟨el, c⟩) j = _
      rw [lookupA_setA_ne _ _ hj]

/-- C8 (witness). The round trip evaluated on the initial state:
hand 0 grabs object 0 from cell 0 and drops it back; cell 0 again holds
exactly `[0]` and the hand slot is empty again. -/
theorem c8_grab_drop_roundtrip_witness :
    lookupA (dropObject (grabObject initState 0 0) 0 0).cellObjects 0 =
      some [0] ∧
    lookupA (dropObject (grabObject initState 0 0) 0 0).heldObjects 0 =
      none := by
  have h := c8_grab_drop_roundtrip initState 0 0 [0] 0 rfl rfl rfl
  exact ⟨h.2.2, (h.2.1 0).trans rfl⟩

/-- C1 (witness). The invariant evaluated on a concrete two-frame
run in which hand 0 grabs the object of cell 0 (FIST at (0.9, 0.1)) and
then drops it into cell 8 (OPEN at (0.25, 0.75)): object 0 still occurs
exactly once. -/
theorem c1_ownership_invariant_witness :
    cellCount (run [[⟨.FIST, 9/10, 1/10⟩], [⟨.OPEN, 25/100, 75/100⟩]]).cellObjects 0 +
      heldCount (run [[⟨.FIST, 9/10, 1/10⟩], [⟨.OPEN, 25/100, 75/100⟩]]).heldObjects 0 = 1 :=
  (c1_ownership_invariant [[⟨.FIST, 9/10, 1/10⟩], [⟨.OPEN, 25/100, 75/100⟩]]).1
    0 (by norm_num)

/-! ### Landmark smoother theorems -/

lemma lookupA_smoothLandmarks_ne (m : List (ℕ × List Pt)) (lm : List Pt)
    {i j : ℕ} (h : j ≠ i) :
    lookupA (smoothLandmarks m lm i).1 j = lookupA m j := by
  unfold smoothLandmarks
  split
  · exact lookupA_setA_ne _ _ h
  · exact lookupA_setA_ne _ _ h

/-- C6 (counterexample). A slot's smoothing history is *not* cleared
when the detector stops reporting a hand in that slot (only a frame with
no hands at all clears it): after a frame reporting two hands (slots 0
and 1) followed by a frame reporting only one hand (slot 0), slot 1's
history is still present. -/
theorem c6_counterexample :
    lookupA (detectStep
      (detectStep [] [[(⟨0, 0, 0⟩ : Pt)], [(⟨1, 0, 0⟩ : Pt)]]).1
      [[(⟨1, 1, 1⟩ : Pt)]]).1 1 = some [⟨1, 0, 0⟩] := rfl

/-- C6 (amended). The landmark smoother returns the raw landmark set
unchanged on the first observation for a slot (seeding the history); on
every subsequent call it returns, per coordinate,
`prev*(1−0.8) + raw*0.8`; and the history is cleared — for *all* slots at
once — exactly when the detector reports no hands at all in a frame,
while a frame that still reports at least one hand leaves the history of
every unreported slot unchanged. -/
theorem c6_smoother :
    (∀ (m : List (ℕ × List Pt)) (lm : List Pt) (i : ℕ),
      lookupA m i = none →
      smoothLandmarks m lm i = (setA m i lm, lm)) ∧
    (∀ (m : List (ℕ × List Pt)) (lm prev : List Pt) (i idx : ℕ) (p r : Pt),
      lookupA m i = some prev →
      prev.get? idx = some p → lm.get? idx = some r →
      (smoothLandmarks m lm i).2.get? idx =
        some ⟨p.x * (1 - smoothingFactor) + r.x * smoothingFactor,
              p.y * (1 - smoothingFactor) + r.y * smoothingFactor,
              p.z * (1 - smoothingFactor) + r.z * smoothingFactor⟩) ∧
    (∀ m : List (ℕ × List Pt), detectStep m [] = ([], none)) ∧
    (∀ (m : List (ℕ × List Pt)) (obs : List (List Pt)) (j : ℕ),
      obs ≠ [] → obs.length ≤ j →
      lookupA (detectStep m obs).1 j = lookupA m j) := by
  refine ⟨?_, ?_, fun m => rfl, ?_⟩
  · intro m lm i h
    simp only [smoothLandmarks, h]
  · intro m lm prev i idx p r hlk hp hr
    simp only [smoothLandmarks, hlk]
    rw [List.get?_eq_getElem?, List.getElem?_map, List.getElem?_enum,
      ← List.get?_eq_getElem?, hr]
    simp only [Option.map_some', hp]
    rfl
  · intro m obs j hobs hlen
    have hne : ¬ obs.isEmpty := by
      simpa [List.isEmpty_iff] using hobs
    simp only [detectStep, if_neg hne]
    have haux : ∀ (l : List (ℕ × List Pt))
        (acc : List (ℕ × List Pt) × List (List Pt)),
        (∀ p ∈ l, p.1 ≠ j) →
        lookupA ((l.foldl
          (fun acc p =>
            ((smoothLandmarks acc.1 p.2 p.1).1,
             acc.2 ++ [(smoothLandmarks acc.1 p.2 p.1).2])) acc).1) j =
          lookupA acc.1 j := by
      intro l
      induction l with
      | nil => intro acc _; rfl
      | cons q l ih =>
        intro acc hq
        simp only [List.foldl_cons]
        rw [ih _ (fun p hp => hq p (List.mem_cons_of_mem q hp))]
        exact lookupA_smoothLandmarks_ne acc.1 q.2
          (fun hj => hq q (List.mem_cons_self q l) hj.symm)
    have hfold : ∀ p ∈ obs.enum, p.1 ≠ j := by
      intro p hp hpj
      have hsome := List.mem_enum_iff_getElem?.mp hp
      have hnone : obs[p.1]? = none :=
        List.getElem?_eq_none (hpj ▸ hlen)
      rw [hnone] at hsome
      cases hsome
    calc lookupA ((obs.enum.foldl
          (fun acc p =>
            ((smoothLandmarks acc.1 p.2 p.1).1,
             acc.2 ++ [(smoothLandmarks acc.1 p.2 p.1).2])) (m, [])).1) j
        = lookupA (m, ([] : List (List Pt))).1 j := haux obs.enum (m, []) hfold
      _ = lookupA m j := rfl

/-- C6 (witness). The amended smoother law at concrete inputs: the
first observation for slot 0 passes `[⟨1, 2, 3⟩]` through unchanged; a
second observation `[⟨6, 7, 8⟩]` smooths to
`1·0.2 + 6·0.8 = 5`, `2·0.2 + 7·0.8 = 6`, `3·0.2 + 8·0.8 = 7`; an empty
frame clears the history; and a one-hand frame leaves slot 1 unchanged. -/
theorem c6_smoother_witness :
    smoothLandmarks [] [(⟨1, 2, 3⟩ : Pt)] 0 = ([(0, [⟨1, 2, 3⟩])], [⟨1, 2, 3⟩]) ∧
    (smoothLandmarks [(0, [(⟨1, 2, 3⟩ : Pt)])] [⟨6, 7, 8⟩] 0).2.get? 0 =
      some ⟨5, 6, 7⟩ ∧
    detectStep [(1, [(⟨1, 2, 3⟩ : Pt)])] [] = ([], none) ∧
    lookupA (detectStep [(1, [(⟨1, 2, 3⟩ : Pt)])] [[⟨0, 0, 0⟩]]).1 1 =
      lookupA [(1, [(⟨1, 2, 3⟩ : Pt)])] 1 := by
  obtain ⟨h1, h2, h3, h4⟩ := c6_smoother
  refine ⟨h1 [] [⟨1, 2, 3⟩] 0 rfl, ?_, h3 _, h4 _ [[⟨0, 0, 0⟩]] 1 (by simp)
    (by norm_num)⟩
  have := h2 [(0, [⟨1, 2, 3⟩])] [⟨6, 7, 8⟩] [⟨1, 2, 3⟩] 0 0 ⟨1, 2, 3⟩ ⟨6, 7, 8⟩
    rfl rfl rfl
  rw [this]
  norm_num [smoothingFactor]

/-! ### Orientation (flip) theorems -/

open Real in
/-- The closed-form wrap agrees with the while loops: the result lies in
`[-π, π]` and differs from the input by an integer multiple of `2π`. -/
lemma wrapToPi_spec (d : ℝ) :
    -π ≤ wrapToPi d ∧ wrapToPi d ≤ π ∧ ∃ k : ℤ, wrapToPi d = d - 2*π*k := by
  have hpi := Real.pi_pos
  have h2pi : (0:ℝ) < 2 * π := by linarith
  set n1 : ℤ := max 0 ⌈(d - π) / (2 * π)⌉ with hn1
  set d1 : ℝ := d - 2 * π * n1 with hd1
  have hd1le : d1 ≤ π := by
    rcases le_or_lt ⌈(d - π) / (2 * π)⌉ 0 with hc | hc
    · have hmax : n1 = 0 := by rw [hn1]; exact max_eq_left hc
      have hle : (d - π) / (2 * π) ≤ 0 := by
        by_contra hlt
        push_neg at hlt
        have h1 := Int.le_ceil ((d - π) / (2 * π))
        have h2 : (0:ℝ) < ⌈(d - π) / (2 * π)⌉ := lt_of_lt_of_le hlt h1
        exact_mod_cast absurd hc (by push_neg; exact_mod_cast h2)
      have : d - π ≤ 0 := by
        by_contra hdp
        push_neg at hdp
        have := div_pos hdp h2pi
        linarith
      rw [hd1, hmax]
      push_cast
      linarith
    · have hmax : n1 = ⌈(d - π) / (2 * π)⌉ := by
        rw [hn1]; exact max_eq_right (le_of_lt hc)
      have hle := Int.le_ceil ((d - π) / (2 * π))
      have : d - π ≤ 2 * π * (⌈(d - π) / (2 * π)⌉ : ℝ) := by
        rw [div_le_iff₀ h2pi] at hle
        linarith [hle]
      rw [hd1, hmax]
      linarith
  set n2 : ℤ := max 0 ⌈(-π - d1) / (2 * π)⌉ with hn2
  have hr : wrapToPi d = d1 + 2 * π * n2 := rfl
  refine ⟨?_, ?_, ⟨n1 - n2, ?_⟩⟩
  · rcases le_or_lt ⌈(-π - d1) / (2 * π)⌉ 0 with hc | hc
    · have hmax : n2 = 0 := by rw [hn2]; exact max_eq_left hc
      have hle : (-π - d1) / (2 * π) ≤ 0 := by
        by_contra hlt
        push_neg at hlt
        have h1 := Int.le_ceil ((-π - d1) / (2 * π))
        have h2 : (0:ℝ) < ⌈(-π - d1) / (2 * π)⌉ := lt_of_lt_of_le hlt h1
        exact_mod_cast absurd hc (by push_neg; exact_mod_cast h2)
      have : -π - d1 ≤ 0 := by
        by_contra hdp
        push_neg at hdp
        have := div_pos hdp h2pi
        linarith
      rw [hr, hmax]
      push_cast
      linarith
    · have hmax : n2 = ⌈(-π - d1) / (2 * π)⌉ := by
        rw [hn2]; exact max_eq_right (le_of_lt hc)
      have hle := Int.le_ceil ((-π - d1) / (2 * π))
      rw [div_le_iff₀ h2pi] at hle
      rw [hr, hmax]
      linarith
  · rcases le_or_lt ⌈(-π - d1) / (2 * π)⌉ 0 with hc | hc
    · have hmax : n2 = 0 := by rw [hn2]; exact max_eq_left hc
      rw [hr, hmax]
      push_cast
      linarith
    · have hmax : n2 = ⌈(-π - d1) / (2 * π)⌉ := by
        rw [hn2]; exact max_eq_right (le_of_lt hc)
      have hub := Int.ceil_lt_add_one ((-π - d1) / (2 * π))
      have hub' : ((⌈(-π - d1) / (2 * π)⌉ : ℝ)) < (-π - d1) / (2 * π) + 1 := hub
      have h3 : 2 * π * ((⌈(-π - d1) / (2 * π)⌉ : ℝ)) < -π - d1 + 2 * π := by
        have hmul := mul_lt_mul_of_pos_left hub' h2pi
        calc 2 * π * ((⌈(-π - d1) / (2 * π)⌉ : ℝ))
            < 2 * π * ((-π - d1) / (2 * π) + 1) := hmul
          _ = -π - d1 + 2 * π := by
            field_simp
      rw [hr, hmax]
      linarith
  · rw [hr, hd1]
    push_cast
    ring

open Real in
/-- Inputs already in `[-π, π]` pass through the wrap loops unchanged. -/
lemma wrapToPi_of_mem {d : ℝ} (h1 : -π ≤ d) (h2 : d ≤ π) : wrapToPi d = d := by
  have hpi := Real.pi_pos
  have h2pi : (0:ℝ) < 2 * π := by linarith
  have c1 : ⌈(d - π) / (2 * π)⌉ ≤ 0 := by
    apply Int.ceil_le.mpr
    push_cast
    apply div_nonpos_of_nonpos_of_nonneg <;> linarith
  have c2 : ⌈(-π - d) / (2 * π)⌉ ≤ 0 := by
    apply Int.ceil_le.mpr
    push_cast
    apply div_nonpos_of_nonpos_of_nonneg <;> linarith
  simp only [wrapToPi]
  rw [max_eq_left c1]
  norm_num
  exact Or.inr c2

open Real in
lemma atan2_zero_one : atan2 0 1 = 0 := by
  unfold atan2
  rw [if_pos one_pos]
  norm_num

open Real in
lemma atan2_zero_neg_one : atan2 0 (-1) = π := by
  unfold atan2
  rw [if_neg (by norm_num), if_pos (by norm_num), if_pos le_rfl]
  norm_num

lemma getPalmNormalZ_of_length (wl : List Pt) (h : 18 ≤ wl.length) :
    getPalmNormalZ wl = some
      (((wl.getD 5 default).x - (wl.getD 0 default).x) *
        ((wl.getD 17 default).y - (wl.getD 0 default).y) -
       ((wl.getD 5 default).y - (wl.getD 0 default).y) *
        ((wl.getD 17 default).x - (wl.getD 0 default).x)) := by
  unfold getPalmNormalZ
  rw [if_neg (by omega)]

open Real in
/-- When a grab normal was recorded and current world landmarks are a
full set, `updateHeldObjectFlip` takes the normal-z path. -/
lemma computeIsBack_normal (held : HeldFlip) (lm wl : List Pt) (gz cz : ℚ)
    (hgz : held.grabNormalZ = some gz)
    (hcz : getPalmNormalZ wl = some cz) :
    computeIsBack held lm (some wl) =
      xor (decide (cz * gz < 0)) held.grabWasBack := by
  simp only [computeIsBack, hgz, hcz]
  rw [if_neg (by simp)]

open Real in
/-- When no grab normal was recorded (`grabNormalZ == null`),
`updateHeldObjectFlip` takes the 2D angle path — whatever the current
world landmarks are. -/
lemma computeIsBack_angle (held : HeldFlip) (lm : List Pt)
    (wlOpt : Option (List Pt)) (hnone : held.grabNormalZ = none) :
    computeIsBack held lm wlOpt =
      xor (decide (π / 6 < |wrapToPi (getPalmAngle lm - held.grabAngle)|))
        held.grabWasBack := by
  simp only [computeIsBack, hnone]
  simp

/-- A held record whose grab happened without world landmarks:
`grabAngle = 0`, `grabNormalZ = null`, front side showing at grab. -/
noncomputable def flipHeldNoNormal : HeldFlip := ⟨0, none, false⟩

/-- A full 21-point world-landmark set with wrist at the origin,
index MCP at `(1,0,0)` and pinky MCP at `(0,1,0)` (palm normal z = 1). -/
def flipTestWorld : List Pt :=
  [⟨0,0,0⟩, ⟨0,0,0⟩, ⟨0,0,0⟩, ⟨0,0,0⟩, ⟨0,0,0⟩,
   ⟨1,0,0⟩, ⟨0,0,0⟩, ⟨0,0,0⟩, ⟨0,0,0⟩, ⟨0,0,0⟩,
   ⟨0,0,0⟩, ⟨0,0,0⟩, ⟨0,0,0⟩, ⟨0,0,0⟩, ⟨0,0,0⟩,
   ⟨0,0,0⟩, ⟨0,0,0⟩, ⟨0,1,0⟩, ⟨0,0,0⟩, ⟨0,0,0⟩, ⟨0,0,0⟩]

/-- Planar landmarks whose wrist→middle-MCP vector points along +x
(palm angle `atan2(0,1) = 0`). -/
def flipTestHand0 : List Pt :=
  [⟨0,0,0⟩, ⟨0,0,0⟩, ⟨0,0,0⟩, ⟨0,0,0⟩, ⟨0,0,0⟩,
   ⟨0,0,0⟩, ⟨0,0,0⟩, ⟨0,0,0⟩, ⟨0,0,0⟩, ⟨1,0,0⟩]

/-- Planar landmarks whose wrist→middle-MCP vector points along −x
(palm angle `atan2(0,−1) = π`). -/
def flipTestHand1 : List Pt :=
  [⟨0,0,0⟩, ⟨0,0,0⟩, ⟨0,0,0⟩, ⟨0,0,0⟩, ⟨0,0,0⟩,
   ⟨0,0,0⟩, ⟨0,0,0⟩, ⟨0,0,0⟩, ⟨0,0,0⟩, ⟨-1,0,0⟩]

lemma getPalmNormalZ_flipTestWorld : getPalmNormalZ flipTestWorld = some 1 := by
  rw [getPalmNormalZ_of_length flipTestWorld (by norm_num [flipTestWorld])]
  norm_num [flipTestWorld]

lemma getPalmAngle_flipTestHand0 : getPalmAngle flipTestHand0 = 0 := by
  unfold getPalmAngle
  rw [if_neg (by norm_num [flipTestHand0])]
  norm_num [flipTestHand0]
  exact atan2_zero_one

open Real in
lemma getPalmAngle_flipTestHand1 : getPalmAngle flipTestHand1 = π := by
  unfold getPalmAngle
  rw [if_neg (by norm_num [flipTestHand1])]
  norm_num [flipTestHand1]
  exact atan2_zero_neg_one

open Real in
lemma computeIsBack_hand0 (wlOpt : Option (List Pt)) :
    computeIsBack flipHeldNoNormal flipTestHand0 wlOpt = false := by
  rw [computeIsBack_angle _ _ _ rfl, getPalmAngle_flipTestHand0]
  have hpi := Real.pi_pos
  have hwrap : wrapToPi (0 - flipHeldNoNormal.grabAngle) = 0 := by
    rw [show (0:ℝ) - flipHeldNoNormal.grabAngle = 0 by
      simp [flipHeldNoNormal]]
    exact wrapToPi_of_mem (by linarith) (by linarith)
  rw [hwrap]
  rw [decide_eq_false (by simp; positivity)]
  simp [flipHeldNoNormal]

open Real in
lemma computeIsBack_hand1 (wlOpt : Option (List Pt)) :
    computeIsBack flipHeldNoNormal flipTestHand1 wlOpt = true := by
  rw [computeIsBack_angle _ _ _ rfl, getPalmAngle_flipTestHand1]
  have hpi := Real.pi_pos
  have hwrap : wrapToPi (π - flipHeldNoNormal.grabAngle) = π := by
    rw [show π - flipHeldNoNormal.grabAngle = π by simp [flipHeldNoNormal]]
    exact wrapToPi_of_mem (by linarith) le_rfl
  rw [hwrap]
  rw [decide_eq_true (show π / 6 < |π| by rw [abs_of_pos hpi]; linarith)]
  simp [flipHeldNoNormal]

/-- C3 (counterexample). The 2D angle path is *not* restricted to
frames without world landmarks: with a held record whose grab recorded no
normal (`grabNormalZ = null`) and a current frame carrying a full
21-point world-landmark set (whose palm normal z is even well-defined,
`= 1`), the displayed flip state follows the 2D landmarks — rotating only
the 2D palm direction from +x to −x flips the result from `false` to
`true`, although the claim says the normal-z path is authoritative
whenever world landmarks are present. -/
theorem c3_counterexample :
    flipTestWorld.length = 21 ∧
    getPalmNormalZ flipTestWorld = some 1 ∧
    flipHeldNoNormal.grabNormalZ = none ∧
    computeIsBack flipHeldNoNormal flipTestHand0 (some flipTestWorld) = false ∧
    computeIsBack flipHeldNoNormal flipTestHand1 (some flipTestWorld) = true :=
  ⟨rfl, getPalmNormalZ_flipTestWorld, rfl,
   computeIsBack_hand0 (some flipTestWorld),
   computeIsBack_hand1 (some flipTestWorld)⟩

open Real in
/-- C3 (amended). While a hand slot is HOLDING: when the grab
recorded a palm normal (world landmarks were present at grab time) and
the current frame has a full world-landmark set, the hand counts as
flipped relative to grab exactly when `currentNormalZ * grabNormalZ < 0`
(normal z from the wrist, index-MCP and pinky-MCP world landmarks) and
the displayed flip state is `handFlippedSinceGrab XOR wasFlippedAtGrab`;
the 2D angle path (rotation when the angular difference wrapped to
`[-π, π]` exceeds `π/6`, same XOR rule) is used exactly when the grab
recorded no normal — i.e. world landmarks were unavailable *at grab
time* — regardless of whether world landmarks are present now. -/
theorem c3_flip_rule :
    (∀ (held : HeldFlip) (lm wl : List Pt) (gz : ℚ),
      held.grabNormalZ = some gz → 18 ≤ wl.length →
      ∃ cz : ℚ, getPalmNormalZ wl = some cz ∧
        computeIsBack held lm (some wl) =
          xor (decide (cz * gz < 0)) held.grabWasBack) ∧
    (∀ (held : HeldFlip) (lm : List Pt) (wlOpt : Option (List Pt)),
      held.grabNormalZ = none →
      computeIsBack held lm wlOpt =
        xor (decide (π / 6 < |wrapToPi (getPalmAngle lm - held.grabAngle)|))
          held.grabWasBack) ∧
    (∀ d : ℝ, -π ≤ wrapToPi d ∧ wrapToPi d ≤ π ∧
      ∃ k : ℤ, wrapToPi d = d - 2*π*k) := by
  refine ⟨?_, computeIsBack_angle, wrapToPi_spec⟩
  intro held lm wl gz hgz hlen
  exact ⟨_, getPalmNormalZ_of_length wl hlen,
    computeIsBack_normal held lm wl gz _ hgz
      (getPalmNormalZ_of_length wl hlen)⟩

/-- C3 (witness). The flip rule at concrete inputs: a grab that
recorded normal `+1` with a current world normal `+1` (product positive,
front side at grab) displays the front side; a grab without a recorded
normal over 2D landmarks at palm angle 0 (grab angle 0) also displays
the front side via the angle path. -/
theorem c3_flip_rule_witness :
    computeIsBack ⟨0, some 1, false⟩ [] (some flipTestWorld) = false ∧
    computeIsBack flipHeldNoNormal flipTestHand0 none = false := by
  constructor
  · obtain ⟨cz, hcz, hres⟩ := c3_flip_rule.1 ⟨0, some 1, false⟩ [] flipTestWorld
      1 rfl (by norm_num [flipTestWorld])
    have hcz1 : cz = 1 :=
      Option.some_inj.mp (hcz.symm.trans getPalmNormalZ_flipTestWorld)
    rw [hres, hcz1]
    rw [decide_eq_false (by norm_num)]
    rfl
  · rw [c3_flip_rule.2.1 flipHeldNoNormal flipTestHand0 none rfl,
      getPalmAngle_flipTestHand0]
    have hpi := Real.pi_pos
    have hwrap : wrapToPi (0 - flipHeldNoNormal.grabAngle) = 0 := by
      rw [show (0:ℝ) - flipHeldNoNormal.grabAngle = 0 by
        simp [flipHeldNoNormal]]
      exact wrapToPi_of_mem (by linarith) (by linarith)
    rw [hwrap]
    rw [decide_eq_false (by simp; positivity)]
    simp [flipHeldNoNormal]

/-! ### Particle field theorems -/

open Real in
/-- The golden-angle constant as used by the source
(`Math.PI * (1 + Math.sqrt(5))`, congruent modulo `2π` to the negated
classical golden angle). -/
noncomputable def goldenAngle : ℝ := π * (1 + Real.sqrt 5)

open Real in
/-- C9. After `gather(center)`, every particle `i < N` has its
target placed by the golden-angle equidistribution
`phi = acos(1 − 2(i+0.5)/N)`, `theta = goldenAngle · i` converted from
spherical to Cartesian coordinates about `center`; that target lies on
the sphere of the configured fixed radius (1.2) around `center`; and the
simulator's state becomes GATHERING. -/
theorem c9_gather (f : ParticleField) (center : Vec3) (i : ℕ)
    (h : i < particleCount) :
    (gather f center).mode = .gathering ∧
    (gather f center).targetPositions i =
      ⟨center.x + sphereRadius *
          sin (arccos (1 - 2 * ((i : ℝ) + 1/2) / (particleCount : ℝ))) *
          cos (goldenAngle * i),
        center.y + sphereRadius *
          sin (arccos (1 - 2 * ((i : ℝ) + 1/2) / (particleCount : ℝ))) *
          sin (goldenAngle * i),
        center.z + sphereRadius *
          cos (arccos (1 - 2 * ((i : ℝ) + 1/2) / (particleCount : ℝ)))⟩ ∧
    dist3 ((gather f center).targetPositions i) center = sphereRadius := by
  have hpos : (gather f center).targetPositions i =
      ⟨center.x + sphereRadius *
          sin (arccos (1 - 2 * ((i : ℝ) + 1/2) / (particleCount : ℝ))) *
          cos (goldenAngle * i),
        center.y + sphereRadius *
          sin (arccos (1 - 2 * ((i : ℝ) + 1/2) / (particleCount : ℝ))) *
          sin (goldenAngle * i),
        center.z + sphereRadius *
          cos (arccos (1 - 2 * ((i : ℝ) + 1/2) / (particleCount : ℝ)))⟩ := by
    simp only [gather, if_pos h, goldenAngle]
  refine ⟨rfl, hpos, ?_⟩
  rw [hpos]
  unfold dist3
  set φ := arccos (1 - 2 * ((i : ℝ) + 1/2) / (particleCount : ℝ))
  set θ := goldenAngle * (i : ℝ)
  simp only [add_sub_cancel_left]
  have h1 := Real.sin_sq_add_cos_sq θ
  have h2 := Real.sin_sq_add_cos_sq φ
  have key : (sphereRadius * sin φ * cos θ)^2 +
      (sphereRadius * sin φ * sin θ)^2 + (sphereRadius * cos φ)^2 =
      sphereRadius^2 := by
    linear_combination (sphereRadius^2 * sin φ ^ 2) * h1 + sphereRadius^2 * h2
  rw [key]
  exact Real.sqrt_sq (by norm_num [sphereRadius])

/-- A particle field as freshly constructed (mode `'scattered'`; the
randomized initial positions are irrelevant to the gather law and are
modelled as the origin). -/
noncomputable def testField : ParticleField :=
  ⟨.scattered, ⟨0, 0, 0⟩, fun _ => ⟨0, 0, 0⟩⟩

/-- C9 (witness). Gathering the test field about the origin puts
particle 0's target exactly at distance 1.2 from the origin and switches
the state to GATHERING. -/
theorem c9_gather_witness :
    (gather testField ⟨0, 0, 0⟩).mode = .gathering ∧
    dist3 ((gather testField ⟨0, 0, 0⟩).targetPositions 0) ⟨0, 0, 0⟩ =
      sphereRadius := by
  obtain ⟨h1, _, h3⟩ := c9_gather testField ⟨0, 0, 0⟩ 0
    (by norm_num [particleCount])
  exact ⟨h1, h3⟩

end HandTracking
